import Mathlib

/-!
Shallow embedding of the Witty Pi power-schedule writer and reader from
`pycam/io_py.py` (`write_witty_schedule_file`, lines 327-448, and
`read_witty_schedule_file`, lines 451-476).

Modelling choices:
* The Python functions receive `datetime.datetime` values that only their
  time-of-day components matter for (the schedule is day-cyclic); all
  subtractions are between datetimes sharing the same date, so a time of day
  is modelled as `TimeOfDay` (hour, minute), seconds taken as zero — the
  comment lines are written with `%H:%M` and the round-trip contract is at
  minute precision.  A datetime subtraction `x - y` then yields
  `(toMin x - toMin y) * 60` seconds.
* Strings are modelled as `List Char`; a file is the list of its lines
  without the trailing newline character (every `f.write` in the source
  emits exactly one newline-terminated line, and the reader iterates over
  lines, stripping the newline with `split('\n')[0]`).
* Python `s.split(c)` is `splitOnChar c`, `pat in line` is
  `strContains line pat`, `int(s)` is `pyInt s` (decimal digits with an
  optional leading minus sign), `lst[1]` is `pyIndex1` (raising
  `IndexError` when absent), and the two-target unpacking of
  `[int(x) for x in v.split(':')]` is `parseHMPair` (raising `ValueError`
  when a part is not an integer or the number of parts is not two).
* Neither Python function contains a `raise` statement and no exception
  class named `ScheduleConfigurationError` or `ScheduleFormatError` exists
  anywhere in the repository; the writer is therefore total, and the reader
  returns `Except PyErr _` whose only error sources are `int()` and the
  list indexing/unpacking above.
* `divmod(total_seconds, 3600)` followed by `rem / 60` is `numHM` on
  seconds, using `Int.fdiv`/`Int.fmod`, which agree with Python's
  floor-division and sign-of-divisor modulo; all values arising here are
  whole numbers of minutes, so the `float` formatting `'{:.0f}'` is exact
  decimal rendering of an integer (`intRepr`).
-/

namespace PyCam

/-- A wall-clock time of day at minute precision (no date component). -/
structure TimeOfDay where
  hour : Nat
  minute : Nat
deriving DecidableEq, Repr

/-- A valid time of day: hour below 24 and minute below 60. -/
def TimeOfDay.valid (t : TimeOfDay) : Prop := t.hour < 24 ∧ t.minute < 60

instance (t : TimeOfDay) : Decidable t.valid := by
  unfold TimeOfDay.valid; infer_instance

/-- Minutes since midnight. -/
def toMin (t : TimeOfDay) : Nat := t.hour * 60 + t.minute

/-- Datetime subtraction `x - y` of two datetimes sharing a date, as a signed
number of seconds (`timedelta.total_seconds()`). -/
def subSeconds (x y : TimeOfDay) : Int := ((toMin x : Int) - (toMin y : Int)) * 60

/-- The `num_hours, rem = divmod(delta.total_seconds(), 3600)` and
`num_mins = rem / 60` computation of the source, on a signed number of
seconds: hours by floor division, remainder nonnegative, minutes from the
remainder. -/
def numHM (seconds : Int) : Int × Int :=
  (seconds.fdiv 3600, (seconds.fmod 3600).fdiv 60)

/-- One `ON`/`OFF` line of the schedule body: the flag is `true` for `ON`,
then the hour and minute figures written after `H` and `M`. -/
def mkSeg (isOn : Bool) (seconds : Int) : Bool × Int × Int :=
  (isOn, (numHM seconds).1, (numHM seconds).2)

/-- Duration of a segment in minutes, as carried by its rendered figures. -/
def segMinutes (s : Bool × Int × Int) : Int := s.2.1 * 60 + s.2.2

/-- Total duration in minutes of a list of segments. -/
def segsTotal (l : List (Bool × Int × Int)) : Int := (l.map segMinutes).sum

/-- The single-window branch of `write_witty_schedule_file`
(io_py.py lines 342-364): the two `ON`/`OFF` segments it writes. -/
def singleSegments (time_on time_off : TimeOfDay) : List (Bool × Int × Int) :=
  if 0 < subSeconds time_off time_on then
    let time_delt_on := subSeconds time_off time_on
    let time_delt_off := 86400 - time_delt_on
    [mkSeg true time_delt_on, mkSeg false time_delt_off]
  else if subSeconds time_off time_on < 0 then
    let time_delt_off := subSeconds time_on time_off
    let time_delt_on := 86400 - time_delt_off
    [mkSeg true time_delt_on, mkSeg false time_delt_off]
  else
    [(true, 24, 0), (false, 0, 0)]

/-- The dual-window branch of `write_witty_schedule_file`
(io_py.py lines 378-433): the four `ON`/`OFF` segments it writes, in the
order they are written (`ON` 1, `OFF` 1, `ON` 2, `OFF` 2). -/
def dualSegments (time_on time_off time_on_2 time_off_2 : TimeOfDay) :
    List (Bool × Int × Int) :=
  let arranged :=
    if toMin time_on < toMin time_on_2 then
      if toMin time_on < toMin time_off then
        (time_on, time_on_2, time_off, time_off_2)
      else
        (time_on, time_on_2, time_off_2, time_off)
    else
      if toMin time_on_2 < toMin time_off_2 then
        (time_on_2, time_on, time_off_2, time_off)
      else
        (time_on_2, time_on, time_off, time_off_2)
  let time_start_1 := arranged.1
  let time_start_2 := arranged.2.1
  let time_stop_1 := arranged.2.2.1
  let time_stop_2 := arranged.2.2.2
  let time_delt_1 := subSeconds time_stop_1 time_start_1
  let time_delt_2 := subSeconds time_start_2 time_stop_1
  if toMin time_start_2 < toMin time_stop_2 then
    let time_delt_3 := subSeconds time_stop_2 time_start_2
    let time_delt_4 := 86400 - (time_delt_1 + time_delt_2 + time_delt_3)
    [mkSeg true time_delt_1, mkSeg false time_delt_2,
     mkSeg true time_delt_3, mkSeg false time_delt_4]
  else
    let time_delt_3 := subSeconds time_start_1 time_stop_2
    let time_delt_4 := 86400 - (time_delt_1 + time_delt_2 + time_delt_3)
    [mkSeg true time_delt_1, mkSeg false time_delt_2,
     mkSeg true time_delt_4, mkSeg false time_delt_3]

/-- Decimal digit character for a digit value. -/
def digitChar : Nat → Char
  | 0 => '0' | 1 => '1' | 2 => '2' | 3 => '3' | 4 => '4'
  | 5 => '5' | 6 => '6' | 7 => '7' | 8 => '8' | _ => '9'

/-- Two-digit zero-padded decimal rendering (`%H`, `%M` of `strftime`,
applied to values below 100). -/
def pad2 (n : Nat) : List Char := [digitChar (n / 10), digitChar (n % 10)]

/-- Decimal digits of a positive number, least significant first. -/
def natDigitsRev (n : Nat) : List Char :=
  if h : n = 0 then [] else digitChar (n % 10) :: natDigitsRev (n / 10)
decreasing_by exact Nat.div_lt_self (Nat.pos_of_ne_zero h) (by omega)

/-- Decimal rendering of a natural number. -/
def natRepr (n : Nat) : List Char :=
  if n = 0 then ['0'] else (natDigitsRev n).reverse

/-- The `'{:.0f}'` formatting of the source applied to a whole number:
plain decimal rendering with a leading minus sign when negative. -/
def intRepr (i : Int) : List Char :=
  if i < 0 then '-' :: natRepr i.natAbs else natRepr i.toNat

/-- The `strftime('%H:%M')` rendering of a time of day. -/
def hhmmChars (t : TimeOfDay) : List Char := pad2 t.hour ++ ':' :: pad2 t.minute

/-- The `strftime('%H:%M:%S')` rendering of a time of day (seconds zero). -/
def hmsChars (t : TimeOfDay) : List Char := hhmmChars t ++ ':' :: ['0', '0']

/-- Rendering of one `ON H.. M..` / `OFF H.. M..` body line. -/
def renderSeg (s : Bool × Int × Int) : List Char :=
  (if s.1 then "ON H".toList else "OFF H".toList) ++
    intRepr s.2.1 ++ ' ' :: 'M' :: intRepr s.2.2

/-- The fixed first line of every schedule file. -/
def headerLine : List Char :=
  "# Raspberry Pi start-up/shut-down schedule script".toList

/-- The fixed `END` sentinel line of every schedule file. -/
def endLine : List Char := "END 2038-01-01 12:00:00".toList

/-- The `BEGIN` line: creation date followed by a start time of day. -/
def beginLine (date_now : List Char) (t : TimeOfDay) : List Char :=
  "BEGIN ".toList ++ date_now ++ ' ' :: hmsChars t

/-- `time_start_1` of the dual branch: the earlier of the two on-times
(io_py.py lines 383-394); on a tie the branch picks `time_on_2`. -/
def startTime1 (time_on time_on_2 : TimeOfDay) : TimeOfDay :=
  if toMin time_on < toMin time_on_2 then time_on else time_on_2

/-- The time of day whose rendering follows the date on the `BEGIN` line:
`time_on` in the single-window form, `time_start_1` in the dual form. -/
def startTime (time_on : TimeOfDay) (time_on_2 time_off_2 : Option TimeOfDay) :
    TimeOfDay :=
  match time_off_2, time_on_2 with
  | some _, some t2 => startTime1 time_on t2
  | _, _ => time_on

/-- `write_witty_schedule_file` (io_py.py lines 327-448): the list of lines
written to the file, given the rendered creation date.  The second window is
used only when both of its times are given (`time_off_2 is None or
time_on_2 is None` selects the single-window branch). -/
def write_witty_schedule_file (date_now : List Char)
    (time_on time_off : TimeOfDay) (time_on_2 time_off_2 : Option TimeOfDay) :
    List (List Char) :=
  match time_off_2, time_on_2 with
  | some t_off_2, some t_on_2 =>
    headerLine ::
    ("# on_time=".toList ++ hhmmChars time_on) ::
    ("# off_time=".toList ++ hhmmChars time_off) ::
    ("# on_time_2=".toList ++ hhmmChars t_on_2) ::
    ("# off_time_2=".toList ++ hhmmChars t_off_2) ::
    beginLine date_now (startTime1 time_on t_on_2) ::
    endLine ::
    (dualSegments time_on time_off t_on_2 t_off_2).map renderSeg
  | _, _ =>
    headerLine ::
    ("# on_time=".toList ++ hhmmChars time_on) ::
    ("# off_time=".toList ++ hhmmChars time_off) ::
    beginLine date_now time_on ::
    endLine ::
    (singleSegments time_on time_off).map renderSeg

/-- Python `startswith` on character lists (the head test of a substring
occurrence). -/
def startsWithChars : List Char → List Char → Bool
  | [], _ => true
  | _ :: _, [] => false
  | a :: as, b :: bs => if a = b then startsWithChars as bs else false

/-- Python's substring test `pat in line` (argument order: pattern first,
searched string second). -/
def isSubChars (p : List Char) (l : List Char) : Bool :=
  startsWithChars p l ||
    match l with
    | [] => false
    | _ :: xs => isSubChars p xs

/-- Python `pat in line` with the source's reading order (`line` first). -/
def strContains (line pat : List Char) : Bool := isSubChars pat line

/-- Python `s.split(sep)` for a one-character separator: the result is
always nonempty and has one more part than there are separators. -/
def splitOnChar (sep : Char) : List Char → List (List Char)
  | [] => [[]]
  | c :: cs =>
    let r := splitOnChar sep cs
    if c = sep then [] :: r
    else
      match r with
      | h :: t => (c :: h) :: t
      | [] => [[c]]

/-- The digit value of a character, `none` on a non-digit (Python `int`
rejects the string as soon as a non-digit occurs). -/
def charVal (c : Char) : Option Nat :=
  if c.isDigit then some (c.toNat - 48) else none

/-- Accumulating decimal parse of a run of digit characters. -/
def parseDigitsAux (a : Nat) : List Char → Option Nat
  | [] => some a
  | c :: cs =>
    match charVal c with
    | some d => parseDigitsAux (a * 10 + d) cs
    | none => none

/-- Python `int(s)`: an optional leading minus sign followed by at least one
decimal digit; anything else raises `ValueError` (modelled as `none`). -/
def pyInt (cs : List Char) : Option Int :=
  match cs with
  | [] => none
  | c :: rest =>
    if c = '-' then
      if rest = [] then none
      else (parseDigitsAux 0 rest).map (fun n => -(n : Int))
    else (parseDigitsAux 0 (c :: rest)).map (fun n => (n : Int))

/-- The exceptions the reader can propagate: `ValueError` from `int()` or
from unpacking a list whose length is not two, `IndexError` from `[1]` on a
too-short list. -/
inductive PyErr where
  | valueError
  | indexError
deriving DecidableEq, Repr

/-- Python `lst[1]`. -/
def pyIndex1 (l : List (List Char)) : Except PyErr (List Char) :=
  match l with
  | _ :: v :: _ => .ok v
  | _ => .error .indexError

/-- Python `s.split('\n')[0]` (the split result is never empty). -/
def stripNl (cs : List Char) : List Char :=
  match splitOnChar '\n' cs with
  | h :: _ => h
  | [] => []

/-- The `x_hour, x_min = [int(x) for x in v.split(':')]` idiom of the
reader: both integers parse and there are exactly two parts, else
`ValueError`. -/
def parseHMPair (v : List Char) : Except PyErr (Int × Int) :=
  match splitOnChar ':' v with
  | [x, y] =>
    match pyInt x, pyInt y with
    | some a, some b => .ok (a, b)
    | _, _ => .error .valueError
  | _ => .error .valueError

/-- The four `(hour, minute)` slots accumulated by
`read_witty_schedule_file`; a slot is `none` exactly when both of its
Python variables are still `None` (they are only ever assigned together). -/
structure ReadState where
  on1 : Option (Int × Int)
  off1 : Option (Int × Int)
  on2 : Option (Int × Int)
  off2 : Option (Int × Int)
deriving DecidableEq, Repr

/-- The reader state before any line is processed. -/
def initialState : ReadState := ⟨none, none, none, none⟩

/-- The `on_time=` comment key. -/
def onKey : List Char := "on_time=".toList

/-- The `off_time=` comment key. -/
def offKey : List Char := "off_time=".toList

/-- The `on_time_2=` comment key. -/
def onKey2 : List Char := "on_time_2=".toList

/-- The `off_time_2=` comment key. -/
def offKey2 : List Char := "off_time_2=".toList

/-- The body of the reader's `for line in f` loop (io_py.py lines 459-471):
the `if`/`elif` chain on substring containment, extracting
`line.split('=')[1].split('\n')[0]` and parsing it as two `:`-separated
integers into the matching slot. -/
def readStep (st : ReadState) (line : List Char) : Except PyErr ReadState :=
  if strContains line onKey then do
    let v ← pyIndex1 (splitOnChar '=' line)
    let p ← parseHMPair (stripNl v)
    .ok { st with on1 := some p }
  else if strContains line offKey then do
    let v ← pyIndex1 (splitOnChar '=' line)
    let p ← parseHMPair (stripNl v)
    .ok { st with off1 := some p }
  else if strContains line onKey2 then do
    let v ← pyIndex1 (splitOnChar '=' line)
    let p ← parseHMPair (stripNl v)
    .ok { st with on2 := some p }
  else if strContains line offKey2 then do
    let v ← pyIndex1 (splitOnChar '=' line)
    let p ← parseHMPair (stripNl v)
    .ok { st with off2 := some p }
  else .ok st

/-- `read_witty_schedule_file` (io_py.py lines 451-476) over the lines of
the file: fold the loop body over the lines and return the four pairs.  The
source's `try`/`except AttributeError` wraps only the `return` statement,
which cannot raise `AttributeError`, so it adds nothing to the model. -/
def read_witty_schedule_file (lines : List (List Char)) :
    Except PyErr ReadState :=
  lines.foldlM readStep initialState

/-- One daily activation window, as a set of minutes of the day: from the
on-time forward to the off-time, wrapping past midnight when the off-time
is not later than the on-time. -/
def inWindow (onT offT : TimeOfDay) (t : Nat) : Prop :=
  if toMin onT < toMin offT then toMin onT ≤ t ∧ t < toMin offT
  else toMin onT ≤ t ∨ t < toMin offT

instance (x y : TimeOfDay) (t : Nat) : Decidable (inWindow x y t) := by
  unfold inWindow; infer_instance

/-- The two windows of a dual-window input share no minute of the day. -/
def windowsDisjoint (a b c d : TimeOfDay) : Prop :=
  ∀ t, t < 1440 → ¬(inWindow a b t ∧ inWindow c d t)

instance (a b c d : TimeOfDay) : Decidable (windowsDisjoint a b c d) := by
  unfold windowsDisjoint; infer_instance

lemma toMin_lt_of_valid {t : TimeOfDay} (h : t.valid) : toMin t < 1440 := by
  rcases h with ⟨h1, h2⟩; unfold toMin; omega

lemma inWindow_on_self (x y : TimeOfDay) : inWindow x y (toMin x) := by
  unfold inWindow; split
  · exact ⟨Nat.le_refl _, by assumption⟩
  · exact Or.inl (Nat.le_refl _)

lemma segMinutes_mkSeg (b : Bool) (k : Int) :
    segMinutes (mkSeg b (k * 60)) = k := by
  show (numHM (k * 60)).1 * 60 + (numHM (k * 60)).2 = k
  unfold numHM
  rw [Int.fdiv_eq_ediv _ (by norm_num), Int.fmod_eq_emod _ (by norm_num),
    Int.fdiv_eq_ediv _ (by norm_num)]
  omega

lemma fst_mkSeg (b : Bool) (s : Int) : (mkSeg b s).1 = b := rfl

lemma two_seg_props (k1 k2 : Int) (h1 : 0 ≤ k1) (h2 : 0 ≤ k2)
    (hsum : k1 + k2 = 1440) :
    ([mkSeg true (k1 * 60), mkSeg false (k2 * 60)].map (fun s => s.1) =
        [true, false]) ∧
    segsTotal [mkSeg true (k1 * 60), mkSeg false (k2 * 60)] = 1440 ∧
    ∀ s ∈ [mkSeg true (k1 * 60), mkSeg false (k2 * 60)], 0 ≤ segMinutes s := by
  refine ⟨by simp [fst_mkSeg], ?_, ?_⟩
  · simp [segsTotal, segMinutes_mkSeg]; omega
  · intro s hs
    simp only [List.mem_cons, List.not_mem_nil, or_false] at hs
    rcases hs with rfl | rfl
    · rw [segMinutes_mkSeg]; exact h1
    · rw [segMinutes_mkSeg]; exact h2

lemma four_seg_props (k1 k2 k3 k4 : Int) (h1 : 0 ≤ k1) (h2 : 0 ≤ k2)
    (h3 : 0 ≤ k3) (h4 : 0 ≤ k4) (hsum : k1 + k2 + k3 + k4 = 1440) :
    ([mkSeg true (k1 * 60), mkSeg false (k2 * 60),
      mkSeg true (k3 * 60), mkSeg false (k4 * 60)].map (fun s => s.1) =
        [true, false, true, false]) ∧
    segsTotal [mkSeg true (k1 * 60), mkSeg false (k2 * 60),
      mkSeg true (k3 * 60), mkSeg false (k4 * 60)] = 1440 ∧
    ∀ s ∈ [mkSeg true (k1 * 60), mkSeg false (k2 * 60),
      mkSeg true (k3 * 60), mkSeg false (k4 * 60)], 0 ≤ segMinutes s := by
  refine ⟨by simp [fst_mkSeg], ?_, ?_⟩
  · simp [segsTotal, segMinutes_mkSeg]; omega
  · intro s hs
    simp only [List.mem_cons, List.not_mem_nil, or_false] at hs
    rcases hs with rfl | rfl | rfl | rfl
    · rw [segMinutes_mkSeg]; exact h1
    · rw [segMinutes_mkSeg]; exact h2
    · rw [segMinutes_mkSeg]; exact h3
    · rw [segMinutes_mkSeg]; exact h4

/-- C1: for every pair of times-of-day `(on, off)` with `on ≠ off`, the
single-window schedule written by `write_witty_schedule_file` consists of
one `ON` and one `OFF` segment, each of nonnegative duration, whose
durations sum to exactly 24 hours. -/
theorem single_schedule_partitions_day (time_on time_off : TimeOfDay)
    (h1 : time_on.valid) (h2 : time_off.valid)
    (hne : toMin time_on ≠ toMin time_off) :
    ((singleSegments time_on time_off).map (fun s => s.1) = [true, false]) ∧
    segsTotal (singleSegments time_on time_off) = 1440 ∧
    ∀ s ∈ singleSegments time_on time_off, 0 ≤ segMinutes s := by
  have hA := toMin_lt_of_valid h1
  have hB := toMin_lt_of_valid h2
  unfold singleSegments
  have e1 : subSeconds time_off time_on =
      ((toMin time_off : Int) - toMin time_on) * 60 := rfl
  have e2 : subSeconds time_on time_off =
      ((toMin time_on : Int) - toMin time_off) * 60 := rfl
  split_ifs with hpos hneg
  · dsimp only
    rw [e1] at hpos ⊢
    rw [show (86400 : Int) - ((toMin time_off : Int) - toMin time_on) * 60
        = (1440 - ((toMin time_off : Int) - toMin time_on)) * 60 from by ring]
    exact two_seg_props _ _ (by omega) (by omega) (by omega)
  · dsimp only
    rw [e2]
    rw [e1] at hpos
    rw [e1] at hneg
    rw [show (86400 : Int) - ((toMin time_on : Int) - toMin time_off) * 60
        = (1440 - ((toMin time_on : Int) - toMin time_off)) * 60 from by ring]
    exact two_seg_props _ _ (by omega) (by omega) (by omega)
  · rw [e1] at hpos
    rw [e1] at hneg
    exact absurd (show toMin time_on = toMin time_off by omega) hne

/-- Witness for C1 at `on = 06:00`, `off = 18:00`. -/
theorem single_schedule_partitions_day_witness :
    (TimeOfDay.mk 6 0).valid ∧ (TimeOfDay.mk 18 0).valid ∧
    toMin ⟨6, 0⟩ ≠ toMin ⟨18, 0⟩ ∧
    (((singleSegments ⟨6, 0⟩ ⟨18, 0⟩).map (fun s => s.1) = [true, false]) ∧
      segsTotal (singleSegments ⟨6, 0⟩ ⟨18, 0⟩) = 1440 ∧
      ∀ s ∈ singleSegments ⟨6, 0⟩ ⟨18, 0⟩, 0 ≤ segMinutes s) :=
  ⟨by decide, by decide, by decide,
    single_schedule_partitions_day ⟨6, 0⟩ ⟨18, 0⟩ (by decide) (by decide)
      (by decide)⟩

/-- C7: for every `(on, off)` with `on` strictly earlier than `off`, the
single-window schedule is an `ON` segment of exactly `off - on` minutes
followed by an `OFF` segment of exactly `24h - (off - on)`; in particular
`on=06:00`, `off=18:00` gives `ON` 12h 0m, `OFF` 12h 0m. -/
theorem single_same_day_durations (time_on time_off : TimeOfDay)
    (hlt : toMin time_on < toMin time_off) :
    ((singleSegments time_on time_off).map (fun s => (s.1, segMinutes s)) =
      [(true, (toMin time_off : Int) - toMin time_on),
       (false, 1440 - ((toMin time_off : Int) - toMin time_on))]) ∧
    singleSegments ⟨6, 0⟩ ⟨18, 0⟩ = [(true, 12, 0), (false, 12, 0)] := by
  refine ⟨?_, by decide⟩
  unfold singleSegments
  have e1 : subSeconds time_off time_on =
      ((toMin time_off : Int) - toMin time_on) * 60 := rfl
  rw [if_pos (by rw [e1]; omega)]
  dsimp only
  rw [e1, show (86400 : Int) - ((toMin time_off : Int) - toMin time_on) * 60
      = (1440 - ((toMin time_off : Int) - toMin time_on)) * 60 from by ring]
  simp [segMinutes_mkSeg, fst_mkSeg]

/-- Witness for C7 at `on = 06:00`, `off = 18:00`. -/
theorem single_same_day_durations_witness :
    toMin ⟨6, 0⟩ < toMin ⟨18, 0⟩ ∧
    (((singleSegments ⟨6, 0⟩ ⟨18, 0⟩).map (fun s => (s.1, segMinutes s)) =
      [(true, (toMin ⟨18, 0⟩ : Int) - toMin ⟨6, 0⟩),
       (false, 1440 - ((toMin ⟨18, 0⟩ : Int) - toMin ⟨6, 0⟩))]) ∧
      singleSegments ⟨6, 0⟩ ⟨18, 0⟩ = [(true, 12, 0), (false, 12, 0)]) :=
  ⟨by decide, single_same_day_durations ⟨6, 0⟩ ⟨18, 0⟩ (by decide)⟩

/-- C8 (counterexample): the claim's example is wrong on the code — at
`on=20:00`, `off=06:00` the schedule written is `ON H10 M0`, `OFF H14 M0`
(on-period 10h, off-period 14h), not `OFF` 10h 0m and `ON` 14h 0m: the
example swaps the two figures, contradicting the claim's own general rule
`OFF = on - off = 14h`. -/
theorem single_wrap_example_refuted :
    singleSegments ⟨20, 0⟩ ⟨6, 0⟩ = [(true, 10, 0), (false, 14, 0)] ∧
    singleSegments ⟨20, 0⟩ ⟨6, 0⟩ ≠ [(true, 14, 0), (false, 10, 0)] := by
  constructor <;> decide

/-- C8 (amended): for every `(on, off)` with `on` strictly later than
`off` (window wrapping past midnight), the single-window schedule is an
`ON` segment of exactly `24h - (on - off)` followed by an `OFF` segment of
exactly `on - off`; in particular `on=20:00`, `off=06:00` gives `ON` 10h 0m
and `OFF` 14h 0m. -/
theorem single_wrap_durations (time_on time_off : TimeOfDay)
    (hgt : toMin time_off < toMin time_on) :
    ((singleSegments time_on time_off).map (fun s => (s.1, segMinutes s)) =
      [(true, 1440 - ((toMin time_on : Int) - toMin time_off)),
       (false, (toMin time_on : Int) - toMin time_off)]) ∧
    singleSegments ⟨20, 0⟩ ⟨6, 0⟩ = [(true, 10, 0), (false, 14, 0)] := by
  refine ⟨?_, by decide⟩
  unfold singleSegments
  have e1 : subSeconds time_off time_on =
      ((toMin time_off : Int) - toMin time_on) * 60 := rfl
  have e2 : subSeconds time_on time_off =
      ((toMin time_on : Int) - toMin time_off) * 60 := rfl
  rw [if_neg (by rw [e1]; omega), if_pos (by rw [e1]; omega)]
  dsimp only
  rw [e2, show (86400 : Int) - ((toMin time_on : Int) - toMin time_off) * 60
      = (1440 - ((toMin time_on : Int) - toMin time_off)) * 60 from by ring]
  simp [segMinutes_mkSeg, fst_mkSeg]

/-- Witness for the amended C8 at `on = 20:00`, `off = 06:00`. -/
theorem single_wrap_durations_witness :
    toMin ⟨6, 0⟩ < toMin ⟨20, 0⟩ ∧
    (((singleSegments ⟨20, 0⟩ ⟨6, 0⟩).map (fun s => (s.1, segMinutes s)) =
      [(true, 1440 - ((toMin ⟨20, 0⟩ : Int) - toMin ⟨6, 0⟩)),
       (false, (toMin ⟨20, 0⟩ : Int) - toMin ⟨6, 0⟩)]) ∧
      singleSegments ⟨20, 0⟩ ⟨6, 0⟩ = [(true, 10, 0), (false, 14, 0)]) :=
  ⟨by decide, single_wrap_durations ⟨20, 0⟩ ⟨6, 0⟩ (by decide)⟩

/-- C6 (code evaluation at the failing input): with `off == on` the
single-window branch silently emits a fixed always-on schedule
`ON H24 M0`, `OFF H0 M0` — no caller policy is requested, contradicting
the claim that no fixed schedule is emitted for the degenerate input. -/
theorem single_degenerate_always_on (t : TimeOfDay) :
    singleSegments t t = [(true, 24, 0), (false, 0, 0)] ∧
    (write_witty_schedule_file "2026-01-01".toList ⟨6, 0⟩ ⟨6, 0⟩ none none).length = 7 := by
  refine ⟨?_, by decide⟩
  unfold singleSegments
  rw [if_neg (by unfold subSeconds; omega), if_neg (by unfold subSeconds; omega)]

/-- C5 (counterexample): on the degenerate dual-window input with all four
times equal to 06:00, `write_witty_schedule_file` does not fail — it
writes a complete 11-line schedule file whose body is the silent fallback
`ON H0 M0`, `OFF H0 M0`, `ON H24 M0`, `OFF H0 M0`. -/
theorem dual_degenerate_no_failure :
    (write_witty_schedule_file "2026-01-01".toList ⟨6, 0⟩ ⟨6, 0⟩
        (some ⟨6, 0⟩) (some ⟨6, 0⟩)).length = 11 ∧
    dualSegments ⟨6, 0⟩ ⟨6, 0⟩ ⟨6, 0⟩ ⟨6, 0⟩ =
      [(true, 0, 0), (false, 0, 0), (true, 24, 0), (false, 0, 0)] := by
  constructor <;> decide

/-- C5 (amended): for every time `t`, the degenerate dual-window input with
all four times equal to `t` is not rejected: the dual branch silently
computes the fallback segments `ON` 0h 0m, `OFF` 0h 0m, `ON` 24h 0m,
`OFF` 0h 0m and writes them out (no `ScheduleConfigurationError` exists in
the code). -/
theorem dual_degenerate_silent_fallback (t : TimeOfDay) :
    dualSegments t t t t =
      [(true, 0, 0), (false, 0, 0), (true, 24, 0), (false, 0, 0)] := by
  unfold dualSegments
  have h : ¬ (toMin t < toMin t) := by omega
  have hs : subSeconds t t = 0 := by unfold subSeconds; omega
  simp only [if_neg h, hs]
  norm_num
  decide

lemma inWindow_iff (x y : TimeOfDay) (t : Nat) :
    inWindow x y t ↔
      ((toMin x < toMin y ∧ toMin x ≤ t ∧ t < toMin y) ∨
       (toMin y ≤ toMin x ∧ (toMin x ≤ t ∨ t < toMin y))) := by
  unfold inWindow; split <;> omega

/-- C2: for every valid dual-window input whose two windows are disjoint,
`write_witty_schedule_file` writes exactly four segments, alternating
`ON`/`OFF` starting with `ON`, each of nonnegative duration, summing to
exactly 24 hours; for the windows 06:00-09:00 and 18:00-21:00 the segments
are `ON` 3h 0m, `OFF` 9h 0m, `ON` 3h 0m, `OFF` 9h 0m. -/
theorem dual_windows_four_segments (a b c d : TimeOfDay)
    (ha : a.valid) (hb : b.valid) (hc : c.valid) (hd : d.valid)
    (hdisj : windowsDisjoint a b c d) :
    (((dualSegments a b c d).map (fun s => s.1) = [true, false, true, false]) ∧
      segsTotal (dualSegments a b c d) = 1440 ∧
      ∀ s ∈ dualSegments a b c d, 0 ≤ segMinutes s) ∧
    dualSegments ⟨6, 0⟩ ⟨9, 0⟩ ⟨18, 0⟩ ⟨21, 0⟩ =
      [(true, 3, 0), (false, 9, 0), (true, 3, 0), (false, 9, 0)] := by
  refine ⟨?_, by decide⟩
  have hA := toMin_lt_of_valid ha
  have hB := toMin_lt_of_valid hb
  have hC := toMin_lt_of_valid hc
  have hD := toMin_lt_of_valid hd
  have h1 : ¬ inWindow c d (toMin a) :=
    fun h => hdisj (toMin a) hA ⟨inWindow_on_self a b, h⟩
  have h2 : ¬ inWindow a b (toMin c) :=
    fun h => hdisj (toMin c) hC ⟨h, inWindow_on_self c d⟩
  rw [inWindow_iff] at h1 h2
  unfold dualSegments
  dsimp only
  rcases Nat.lt_or_ge (toMin a) (toMin c) with hac | hac
  · rw [if_pos hac]
    rcases Nat.lt_or_ge (toMin a) (toMin b) with hab | hab
    · rw [if_pos hab]
      dsimp only
      rcases Nat.lt_or_ge (toMin c) (toMin d) with hcd | hcd
      · rw [if_pos hcd]
        rw [show (86400 : Int) -
              (subSeconds b a + subSeconds c b + subSeconds d c)
            = (1440 - (((toMin b : Int) - toMin a) + ((toMin c : Int) - toMin b)
                + ((toMin d : Int) - toMin c))) * 60 from by
              unfold subSeconds; ring]
        rw [show subSeconds b a = ((toMin b : Int) - toMin a) * 60 from rfl,
          show subSeconds c b = ((toMin c : Int) - toMin b) * 60 from rfl,
          show subSeconds d c = ((toMin d : Int) - toMin c) * 60 from rfl]
        exact four_seg_props _ _ _ _ (by omega) (by omega) (by omega)
          (by omega) (by omega)
      · rw [if_neg (show ¬(toMin c < toMin d) from by omega)]
        rw [show (86400 : Int) -
              (subSeconds b a + subSeconds c b + subSeconds a d)
            = (1440 - (((toMin b : Int) - toMin a) + ((toMin c : Int) - toMin b)
                + ((toMin a : Int) - toMin d))) * 60 from by
              unfold subSeconds; ring]
        rw [show subSeconds b a = ((toMin b : Int) - toMin a) * 60 from rfl,
          show subSeconds c b = ((toMin c : Int) - toMin b) * 60 from rfl,
          show subSeconds a d = ((toMin a : Int) - toMin d) * 60 from rfl]
        exact four_seg_props _ _ _ _ (by omega) (by omega) (by omega)
          (by omega) (by omega)
    · exfalso; omega
  · rw [if_neg (show ¬(toMin a < toMin c) from by omega)]
    rcases Nat.lt_or_ge (toMin c) (toMin d) with hcd | hcd
    · rw [if_pos hcd]
      dsimp only
      rcases Nat.lt_or_ge (toMin a) (toMin b) with hab | hab
      · rw [if_pos hab]
        rw [show (86400 : Int) -
              (subSeconds d c + subSeconds a d + subSeconds b a)
            = (1440 - (((toMin d : Int) - toMin c) + ((toMin a : Int) - toMin d)
                + ((toMin b : Int) - toMin a))) * 60 from by
              unfold subSeconds; ring]
        rw [show subSeconds d c = ((toMin d : Int) - toMin c) * 60 from rfl,
          show subSeconds a d = ((toMin a : Int) - toMin d) * 60 from rfl,
          show subSeconds b a = ((toMin b : Int) - toMin a) * 60 from rfl]
        exact four_seg_props _ _ _ _ (by omega) (by omega) (by omega)
          (by omega) (by omega)
      · rw [if_neg (show ¬(toMin a < toMin b) from by omega)]
        rw [show (86400 : Int) -
              (subSeconds d c + subSeconds a d + subSeconds c b)
            = (1440 - (((toMin d : Int) - toMin c) + ((toMin a : Int) - toMin d)
                + ((toMin c : Int) - toMin b))) * 60 from by
              unfold subSeconds; ring]
        rw [show subSeconds d c = ((toMin d : Int) - toMin c) * 60 from rfl,
          show subSeconds a d = ((toMin a : Int) - toMin d) * 60 from rfl,
          show subSeconds c b = ((toMin c : Int) - toMin b) * 60 from rfl]
        exact four_seg_props _ _ _ _ (by omega) (by omega) (by omega)
          (by omega) (by omega)
    · exfalso; omega

lemma witness_disjoint_0609_1821 :
    windowsDisjoint ⟨6, 0⟩ ⟨9, 0⟩ ⟨18, 0⟩ ⟨21, 0⟩ := by
  intro t ht
  norm_num [inWindow, toMin]
  omega

/-- Witness for C2 at windows 06:00-09:00 and 18:00-21:00. -/
theorem dual_windows_four_segments_witness :
    (TimeOfDay.mk 6 0).valid ∧ (TimeOfDay.mk 9 0).valid ∧
    (TimeOfDay.mk 18 0).valid ∧ (TimeOfDay.mk 21 0).valid ∧
    windowsDisjoint ⟨6, 0⟩ ⟨9, 0⟩ ⟨18, 0⟩ ⟨21, 0⟩ ∧
    ((((dualSegments ⟨6, 0⟩ ⟨9, 0⟩ ⟨18, 0⟩ ⟨21, 0⟩).map (fun s => s.1) =
        [true, false, true, false]) ∧
      segsTotal (dualSegments ⟨6, 0⟩ ⟨9, 0⟩ ⟨18, 0⟩ ⟨21, 0⟩) = 1440 ∧
      ∀ s ∈ dualSegments ⟨6, 0⟩ ⟨9, 0⟩ ⟨18, 0⟩ ⟨21, 0⟩, 0 ≤ segMinutes s) ∧
    dualSegments ⟨6, 0⟩ ⟨9, 0⟩ ⟨18, 0⟩ ⟨21, 0⟩ =
      [(true, 3, 0), (false, 9, 0), (true, 3, 0), (false, 9, 0)]) :=
  ⟨by decide, by decide, by decide, by decide, witness_disjoint_0609_1821,
    dual_windows_four_segments ⟨6, 0⟩ ⟨9, 0⟩ ⟨18, 0⟩ ⟨21, 0⟩
      (by decide) (by decide) (by decide) (by decide)
      witness_disjoint_0609_1821⟩

/-- C9: for every input, the written file contains the `BEGIN` line made of
the creation date and the first segment's start time of day — `time_on` in
the single-window form, the earlier of the two on-times in the dual form —
and contains the fixed `END 2038-01-01 12:00:00` sentinel line. -/
theorem begin_end_lines (date_now : List Char) (time_on time_off : TimeOfDay)
    (time_on_2 time_off_2 : Option TimeOfDay) :
    beginLine date_now (startTime time_on time_on_2 time_off_2) ∈
      write_witty_schedule_file date_now time_on time_off time_on_2 time_off_2 ∧
    endLine ∈
      write_witty_schedule_file date_now time_on time_off time_on_2 time_off_2 ∧
    ∀ t2 f2, time_on_2 = some t2 → time_off_2 = some f2 →
      toMin (startTime time_on time_on_2 time_off_2) =
        min (toMin time_on) (toMin t2) := by
  rcases time_off_2 with _ | f2 <;> rcases time_on_2 with _ | t2
  · exact ⟨by simp [write_witty_schedule_file, startTime],
      by simp [write_witty_schedule_file], fun _ _ h => by cases h⟩
  · exact ⟨by simp [write_witty_schedule_file, startTime],
      by simp [write_witty_schedule_file], fun _ _ _ h => by cases h⟩
  · exact ⟨by simp [write_witty_schedule_file, startTime],
      by simp [write_witty_schedule_file], fun _ _ h => by cases h⟩
  · refine ⟨by simp [write_witty_schedule_file, startTime],
      by simp [write_witty_schedule_file], ?_⟩
    intro t2' f2' h2 hf2
    cases h2
    simp only [startTime, startTime1]
    split_ifs with h <;> omega

/-- Witness for C9 in both forms, at `on=06:00`, `off=09:00` with and
without the second window `18:00-21:00`. -/
theorem begin_end_lines_witness :
    (beginLine "2026-01-01".toList (startTime ⟨6, 0⟩ none none) ∈
      write_witty_schedule_file "2026-01-01".toList ⟨6, 0⟩ ⟨9, 0⟩ none none) ∧
    (endLine ∈
      write_witty_schedule_file "2026-01-01".toList ⟨6, 0⟩ ⟨9, 0⟩ none none) ∧
    (beginLine "2026-01-01".toList
        (startTime ⟨6, 0⟩ (some ⟨18, 0⟩) (some ⟨21, 0⟩)) ∈
      write_witty_schedule_file "2026-01-01".toList ⟨6, 0⟩ ⟨9, 0⟩
        (some ⟨18, 0⟩) (some ⟨21, 0⟩)) ∧
    (endLine ∈
      write_witty_schedule_file "2026-01-01".toList ⟨6, 0⟩ ⟨9, 0⟩
        (some ⟨18, 0⟩) (some ⟨21, 0⟩)) ∧
    toMin (startTime ⟨6, 0⟩ (some ⟨18, 0⟩) (some ⟨21, 0⟩)) =
      min (toMin ⟨6, 0⟩) (toMin ⟨18, 0⟩) :=
  ⟨(begin_end_lines "2026-01-01".toList ⟨6, 0⟩ ⟨9, 0⟩ none none).1,
   (begin_end_lines "2026-01-01".toList ⟨6, 0⟩ ⟨9, 0⟩ none none).2.1,
   (begin_end_lines "2026-01-01".toList ⟨6, 0⟩ ⟨9, 0⟩
      (some ⟨18, 0⟩) (some ⟨21, 0⟩)).1,
   (begin_end_lines "2026-01-01".toList ⟨6, 0⟩ ⟨9, 0⟩
      (some ⟨18, 0⟩) (some ⟨21, 0⟩)).2.1,
   (begin_end_lines "2026-01-01".toList ⟨6, 0⟩ ⟨9, 0⟩
      (some ⟨18, 0⟩) (some ⟨21, 0⟩)).2.2 ⟨18, 0⟩ ⟨21, 0⟩ rfl rfl⟩

lemma startsWith_subset {p l : List Char} (h : startsWithChars p l = true) :
    ∀ ch ∈ p, ch ∈ l := by
  induction p generalizing l with
  | nil => intro ch hch; cases hch
  | cons a as ih =>
    cases l with
    | nil => simp [startsWithChars] at h
    | cons b bs =>
      unfold startsWithChars at h
      split_ifs at h with hab
      · intro ch hch
        rcases List.mem_cons.mp hch with rfl | hm
        · exact hab ▸ List.mem_cons_self _ _
        · exact List.mem_cons_of_mem _ (ih h _ hm)

lemma isSub_subset {p l : List Char} (h : isSubChars p l = true) :
    ∀ ch ∈ p, ch ∈ l := by
  induction l with
  | nil =>
    cases p with
    | nil => intro ch hch; cases hch
    | cons a as => simp [isSubChars, startsWithChars] at h
  | cons x xs ih =>
    unfold isSubChars at h
    rcases Bool.or_eq_true_iff.mp h with hsw | hrec
    · exact startsWith_subset hsw
    · exact fun ch hch => List.mem_cons_of_mem _ (ih hrec ch hch)

lemma isSub_eq_false_of_not_mem {p l : List Char} {c : Char}
    (hc : c ∈ p) (hl : c ∉ l) : isSubChars p l = false := by
  cases h : isSubChars p l
  · rfl
  · exact absurd (isSub_subset h c hc) hl

lemma startsWith_self_append (p t : List Char) :
    startsWithChars p (p ++ t) = true := by
  induction p with
  | nil => rfl
  | cons a as ih => simp [startsWithChars, ih]

lemma isSub_of_sw {p l : List Char} (h : startsWithChars p l = true) :
    isSubChars p l = true := by
  cases l with
  | nil =>
    cases p with
    | nil => rfl
    | cons a as => simp [startsWithChars] at h
  | cons x xs =>
    have hstep : isSubChars p (x :: xs) =
        (startsWithChars p (x :: xs) || isSubChars p xs) := rfl
    rw [hstep, h]
    rfl

lemma isSub_append_self (pre p suf : List Char) :
    isSubChars p (pre ++ p ++ suf) = true := by
  induction pre with
  | nil => exact isSub_of_sw (startsWith_self_append p suf)
  | cons x xs ih =>
    have hstep : isSubChars p ((x :: xs) ++ p ++ suf) =
        (startsWithChars p ((x :: xs) ++ p ++ suf) ||
          isSubChars p (xs ++ p ++ suf)) := rfl
    rw [hstep, ih]
    simp

lemma startsWith_append_false {p suf : List Char}
    (hsuf : ∀ ch ∈ p, ch ∉ suf) :
    ∀ l : List Char, startsWithChars p l = false →
      startsWithChars p (l ++ suf) = false := by
  induction p with
  | nil => intro l h; simp [startsWithChars] at h
  | cons a as ih =>
    intro l h
    cases l with
    | nil =>
      cases suf with
      | nil => rfl
      | cons s ss =>
        simp only [List.nil_append]
        unfold startsWithChars
        rw [if_neg (fun he => hsuf a (List.mem_cons_self _ _)
          (by rw [he]; exact List.mem_cons_self _ _))]
    | cons b bs =>
      simp only [List.cons_append]
      unfold startsWithChars at h ⊢
      split_ifs at h ⊢ with hab
      · exact ih (fun ch hm => hsuf ch (List.mem_cons_of_mem _ hm)) bs h
      · rfl

lemma isSub_mixed_false {p : List Char} (pre : List Char) {suf : List Char}
    (hne : p ≠ []) (hsuf : ∀ ch ∈ p, ch ∉ suf)
    (h2 : ∀ i, i ≤ pre.length → startsWithChars p (pre.drop i) = false) :
    isSubChars p (pre ++ suf) = false := by
  induction pre with
  | nil =>
    rcases p with _ | ⟨a, as⟩
    · exact absurd rfl hne
    · exact isSub_eq_false_of_not_mem (List.mem_cons_self a as)
        (hsuf a (List.mem_cons_self a as))
  | cons x xs ih =>
    show (startsWithChars p ((x :: xs) ++ suf) || isSubChars p (xs ++ suf)) =
      false
    rw [startsWith_append_false hsuf (x :: xs) (h2 0 (by omega)),
      ih (fun i hi => h2 (i + 1) (by simp; omega))]
    rfl

lemma digitChar_isDigit (d : Nat) : (digitChar d).isDigit = true := by
  unfold digitChar; split <;> decide

lemma charVal_digitChar {d : Nat} (h : d < 10) :
    charVal (digitChar d) = some d := by
  interval_cases d <;> decide

lemma mem_pad2 {c : Char} {n : Nat} (h : c ∈ pad2 n) : c.isDigit = true := by
  simp only [pad2, List.mem_cons, List.not_mem_nil, or_false] at h
  rcases h with rfl | rfl <;> exact digitChar_isDigit _

lemma mem_hhmm {c : Char} {t : TimeOfDay} (h : c ∈ hhmmChars t) :
    c.isDigit = true ∨ c = ':' := by
  unfold hhmmChars at h
  rcases List.mem_append.mp h with h | h
  · exact Or.inl (mem_pad2 h)
  · rcases List.mem_cons.mp h with rfl | h
    · exact Or.inr rfl
    · exact Or.inl (mem_pad2 h)

lemma mem_hms {c : Char} {t : TimeOfDay} (h : c ∈ hmsChars t) :
    c.isDigit = true ∨ c = ':' := by
  unfold hmsChars at h
  rcases List.mem_append.mp h with h | h
  · exact mem_hhmm h
  · rcases List.mem_cons.mp h with rfl | h
    · exact Or.inr rfl
    · simp only [List.mem_cons, List.not_mem_nil, or_false] at h
      rcases h with rfl | rfl <;> exact Or.inl (by decide)

lemma mem_natDigitsRev : ∀ n : Nat, ∀ c ∈ natDigitsRev n, c.isDigit = true := by
  intro n
  induction n using Nat.strong_induction_on with
  | _ n ih =>
    rw [natDigitsRev]
    split_ifs with h
    · intro c hc; cases hc
    · intro c hc
      rcases List.mem_cons.mp hc with rfl | hc
      · exact digitChar_isDigit _
      · exact ih (n / 10) (Nat.div_lt_self (Nat.pos_of_ne_zero h) (by omega)) c hc

lemma mem_natRepr {c : Char} {n : Nat} (h : c ∈ natRepr n) :
    c.isDigit = true := by
  unfold natRepr at h
  split_ifs at h with h0
  · simp only [List.mem_cons, List.not_mem_nil, or_false] at h
    subst h; decide
  · exact mem_natDigitsRev n c (List.mem_reverse.mp h)

lemma mem_intRepr {c : Char} {i : Int} (h : c ∈ intRepr i) :
    c.isDigit = true ∨ c = '-' := by
  unfold intRepr at h
  split_ifs at h with hneg
  · rcases List.mem_cons.mp h with rfl | h
    · exact Or.inr rfl
    · exact Or.inl (mem_natRepr h)
  · exact Or.inl (mem_natRepr h)

lemma splitOnChar_no_sep {sep : Char} {l : List Char} (h : sep ∉ l) :
    splitOnChar sep l = [l] := by
  induction l with
  | nil => rfl
  | cons c cs ih =>
    have hc : ¬ (c = sep) := fun he => h (by rw [he]; exact List.mem_cons_self _ _)
    have hcs : sep ∉ cs := fun hm => h (List.mem_cons_of_mem _ hm)
    calc splitOnChar sep (c :: cs)
        = (if c = sep then [] :: splitOnChar sep cs
          else
            match splitOnChar sep cs with
            | hh :: t => (c :: hh) :: t
            | [] => [[c]]) := rfl
      _ = (match splitOnChar sep cs with
            | hh :: t => (c :: hh) :: t
            | [] => [[c]]) := by rw [if_neg hc]
      _ = [c :: cs] := by rw [ih hcs]

lemma splitOnChar_append {sep : Char} {pre suf : List Char} (h : sep ∉ pre) :
    splitOnChar sep (pre ++ sep :: suf) = pre :: splitOnChar sep suf := by
  induction pre with
  | nil =>
    calc splitOnChar sep (sep :: suf)
        = (if sep = sep then [] :: splitOnChar sep suf
          else
            match splitOnChar sep suf with
            | hh :: t => (sep :: hh) :: t
            | [] => [[sep]]) := rfl
      _ = [] :: splitOnChar sep suf := by rw [if_pos rfl]
  | cons x xs ih =>
    have hx : ¬ (x = sep) := fun he => h (by rw [he]; exact List.mem_cons_self _ _)
    have hxs : sep ∉ xs := fun hm => h (List.mem_cons_of_mem _ hm)
    calc splitOnChar sep ((x :: xs) ++ sep :: suf)
        = (if x = sep then [] :: splitOnChar sep (xs ++ sep :: suf)
          else
            match splitOnChar sep (xs ++ sep :: suf) with
            | hh :: t => (x :: hh) :: t
            | [] => [[x]]) := rfl
      _ = (match splitOnChar sep (xs ++ sep :: suf) with
            | hh :: t => (x :: hh) :: t
            | [] => [[x]]) := by rw [if_neg hx]
      _ = (x :: xs) :: splitOnChar sep suf := by rw [ih hxs]

lemma parseDigitsAux_cons (a : Nat) {d : Nat} (h : d < 10)
    (rest : List Char) :
    parseDigitsAux a (digitChar d :: rest) = parseDigitsAux (a * 10 + d) rest := by
  conv_lhs => rw [parseDigitsAux]
  rw [charVal_digitChar h]

lemma parseDigitsAux_nil (a : Nat) : parseDigitsAux a [] = some a := rfl

lemma pyInt_pad2 {n : Nat} (h : n < 100) : pyInt (pad2 n) = some (n : Int) := by
  have h1 : n / 10 < 10 := by omega
  have h2 : n % 10 < 10 := by omega
  have hd : digitChar (n / 10) ≠ '-' := fun he => by
    have hx := digitChar_isDigit (n / 10); rw [he] at hx; cases hx
  have estep : pyInt (digitChar (n / 10) :: [digitChar (n % 10)]) =
      (if digitChar (n / 10) = '-' then
        (if ([digitChar (n % 10)] : List Char) = [] then none
         else (parseDigitsAux 0 [digitChar (n % 10)]).map (fun k => -(k : Int)))
       else (parseDigitsAux 0
          (digitChar (n / 10) :: [digitChar (n % 10)])).map
            (fun k => (k : Int))) := rfl
  rw [show pad2 n = digitChar (n / 10) :: [digitChar (n % 10)] from rfl, estep,
    if_neg hd, parseDigitsAux_cons 0 h1, parseDigitsAux_cons _ h2,
    parseDigitsAux_nil]
  show some (((0 * 10 + n / 10) * 10 + n % 10 : Nat) : Int) = some (n : Int)
  congr 1
  omega

lemma except_bind_ok {α β : Type} (v : α) (f : α → Except PyErr β) :
    (Except.ok v >>= f : Except PyErr β) = f v := rfl

lemma except_bind_error {α β : Type} (e : PyErr) (f : α → Except PyErr β) :
    (Except.error e >>= f : Except PyErr β) = Except.error e := rfl

lemma pyIndex1_cons (x v : List Char) (rest : List (List Char)) :
    pyIndex1 (x :: v :: rest) = .ok v := rfl

lemma stripNl_no_nl {cs : List Char} (h : '\n' ∉ cs) : stripNl cs = cs := by
  unfold stripNl
  rw [splitOnChar_no_sep h]

lemma hhmm_no_char {c : Char} (hc1 : c.isDigit = false) (hc2 : c ≠ ':')
    (t : TimeOfDay) : c ∉ hhmmChars t := fun hm => by
  rcases mem_hhmm hm with hd | he
  · rw [hc1] at hd; cases hd
  · exact hc2 he

/-- A line that matches none of the four comment keys. -/
def noKeyLine (l : List Char) : Prop :=
  strContains l onKey = false ∧ strContains l offKey = false ∧
  strContains l onKey2 = false ∧ strContains l offKey2 = false

lemma readStep_no_key {st : ReadState} {l : List Char} (h : noKeyLine l) :
    readStep st l = .ok st := by
  unfold readStep
  rw [h.1, h.2.1, h.2.2.1, h.2.2.2]
  rfl

lemma foldlM_no_key {lines : List (List Char)}
    (h : ∀ l ∈ lines, noKeyLine l) (st : ReadState) :
    lines.foldlM readStep st = .ok st := by
  induction lines generalizing st with
  | nil => rfl
  | cons l ls ih =>
    rw [List.foldlM_cons, readStep_no_key (h l (List.mem_cons_self _ _)),
      except_bind_ok]
    exact ih (fun x hm => h x (List.mem_cons_of_mem _ hm)) st

lemma comment_contains_false {pre : List Char} {t : TimeOfDay}
    {pat : List Char} {c : Char} (hc : c ∈ pat) (hpre : c ∉ pre)
    (hdig : c.isDigit = false) (hcol : c ≠ ':') :
    strContains (pre ++ hhmmChars t) pat = false :=
  isSub_eq_false_of_not_mem hc (fun hm => by
    rcases List.mem_append.mp hm with hm | hm
    · exact hpre hm
    · exact hhmm_no_char hdig hcol t hm)

lemma comment_contains_mixed_false (pre : List Char) {t : TimeOfDay}
    {pat : List Char} (hne : pat ≠ [])
    (hcl : ∀ ch ∈ pat, ch.isDigit = false ∧ ch ≠ ':')
    (h2 : ∀ i, i ≤ pre.length → startsWithChars pat (pre.drop i) = false) :
    strContains (pre ++ hhmmChars t) pat = false :=
  isSub_mixed_false pre hne
    (fun ch hm => hhmm_no_char (hcl ch hm).1 (hcl ch hm).2 t) h2

lemma begin_contains_false {date : List Char} (hd : '=' ∉ date)
    (t : TimeOfDay) {pat : List Char} (hc : '=' ∈ pat) :
    strContains (beginLine date t) pat = false :=
  isSub_eq_false_of_not_mem hc (fun hm => by
    unfold beginLine at hm
    rcases List.mem_append.mp hm with hm | hm
    · rcases List.mem_append.mp hm with hm | hm
      · exact absurd hm (by decide)
      · exact hd hm
    · rcases List.mem_cons.mp hm with he | hm
      · exact absurd he (by decide)
      · rcases mem_hms hm with hdg | he
        · exact absurd hdg (by decide)
        · exact absurd he (by decide))

lemma renderSeg_contains_false (s : Bool × Int × Int) {pat : List Char}
    (hc : '=' ∈ pat) : strContains (renderSeg s) pat = false :=
  isSub_eq_false_of_not_mem hc (fun hm => by
    unfold renderSeg at hm
    rcases List.mem_append.mp hm with hm | hm
    · rcases List.mem_append.mp hm with hm | hm
      · split_ifs at hm <;> exact absurd hm (by decide)
      · rcases mem_intRepr hm with hd | he
        · exact absurd hd (by decide)
        · exact absurd he (by decide)
    · rcases List.mem_cons.mp hm with he | hm
      · exact absurd he (by decide)
      · rcases List.mem_cons.mp hm with he | hm
        · exact absurd he (by decide)
        · rcases mem_intRepr hm with hd | he
          · exact absurd hd (by decide)
          · exact absurd he (by decide))

lemma beginLine_no_key {date : List Char} (hd : '=' ∉ date) (t : TimeOfDay) :
    noKeyLine (beginLine date t) :=
  ⟨begin_contains_false hd t (by decide), begin_contains_false hd t (by decide),
   begin_contains_false hd t (by decide), begin_contains_false hd t (by decide)⟩

lemma renderSeg_no_key (s : Bool × Int × Int) : noKeyLine (renderSeg s) :=
  ⟨renderSeg_contains_false s (by decide), renderSeg_contains_false s (by decide),
   renderSeg_contains_false s (by decide), renderSeg_contains_false s (by decide)⟩

lemma headerLine_no_key : noKeyLine headerLine := by
  refine ⟨?_, ?_, ?_, ?_⟩ <;> decide

lemma endLine_no_key : noKeyLine endLine := by
  refine ⟨?_, ?_, ?_, ?_⟩ <;> decide

lemma parseHMPair_hhmm (t : TimeOfDay) (h1 : t.hour < 100)
    (h2 : t.minute < 100) :
    parseHMPair (hhmmChars t) = .ok ((t.hour : Int), (t.minute : Int)) := by
  have hc1 : (':' : Char) ∉ pad2 t.hour := fun hm => by
    have hx := mem_pad2 hm; exact absurd hx (by decide)
  have hc2 : (':' : Char) ∉ pad2 t.minute := fun hm => by
    have hx := mem_pad2 hm; exact absurd hx (by decide)
  have e1 : splitOnChar ':' (pad2 t.hour ++ ':' :: pad2 t.minute) =
      [pad2 t.hour, pad2 t.minute] := by
    rw [splitOnChar_append hc1, splitOnChar_no_sep hc2]
  simp only [parseHMPair, hhmmChars, e1, pyInt_pad2 h1, pyInt_pad2 h2]

lemma stripNl_hhmm (t : TimeOfDay) : stripNl (hhmmChars t) = hhmmChars t :=
  stripNl_no_nl (hhmm_no_char (by decide) (by decide) t)

lemma readStep_on_line (st : ReadState) (t : TimeOfDay) (h1 : t.hour < 100)
    (h2 : t.minute < 100) :
    readStep st ("# on_time=".toList ++ hhmmChars t) =
      .ok { st with on1 := some ((t.hour : Int), (t.minute : Int)) } := by
  have hkey : strContains ("# on_time=".toList ++ hhmmChars t) onKey = true := by
    rw [show "# on_time=".toList = "# ".toList ++ onKey from by decide]
    exact isSub_append_self "# ".toList onKey (hhmmChars t)
  have hsplit : splitOnChar '=' ("# on_time=".toList ++ hhmmChars t) =
      ["# on_time".toList, hhmmChars t] := by
    rw [show "# on_time=".toList ++ hhmmChars t
        = "# on_time".toList ++ '=' :: hhmmChars t from by
          rw [show "# on_time=".toList
            = "# on_time".toList ++ ['='] from by decide, List.append_assoc,
            List.singleton_append],
      splitOnChar_append (by decide),
      splitOnChar_no_sep (hhmm_no_char (by decide) (by decide) t)]
  simp only [readStep, hkey, if_true, hsplit, pyIndex1_cons, except_bind_ok,
    stripNl_hhmm, parseHMPair_hhmm t h1 h2]

lemma readStep_off_line (st : ReadState) (t : TimeOfDay) (h1 : t.hour < 100)
    (h2 : t.minute < 100) :
    readStep st ("# off_time=".toList ++ hhmmChars t) =
      .ok { st with off1 := some ((t.hour : Int), (t.minute : Int)) } := by
  have hk1 : strContains ("# off_time=".toList ++ hhmmChars t) onKey = false :=
    comment_contains_false (c := 'n') (by decide) (by decide) (by decide)
      (by decide)
  have hkey : strContains ("# off_time=".toList ++ hhmmChars t) offKey = true := by
    rw [show "# off_time=".toList = "# ".toList ++ offKey from by decide]
    exact isSub_append_self "# ".toList offKey (hhmmChars t)
  have hsplit : splitOnChar '=' ("# off_time=".toList ++ hhmmChars t) =
      ["# off_time".toList, hhmmChars t] := by
    rw [show "# off_time=".toList ++ hhmmChars t
        = "# off_time".toList ++ '=' :: hhmmChars t from by
          rw [show "# off_time=".toList
            = "# off_time".toList ++ ['='] from by decide, List.append_assoc,
            List.singleton_append],
      splitOnChar_append (by decide),
      splitOnChar_no_sep (hhmm_no_char (by decide) (by decide) t)]
  simp only [readStep, hk1, hkey, if_true, Bool.false_eq_true, if_false,
    hsplit, pyIndex1_cons, except_bind_ok, stripNl_hhmm,
    parseHMPair_hhmm t h1 h2]

lemma readStep_on2_line (st : ReadState) (t : TimeOfDay) (h1 : t.hour < 100)
    (h2 : t.minute < 100) :
    readStep st ("# on_time_2=".toList ++ hhmmChars t) =
      .ok { st with on2 := some ((t.hour : Int), (t.minute : Int)) } := by
  have hk1 : strContains ("# on_time_2=".toList ++ hhmmChars t) onKey = false :=
    comment_contains_mixed_false "# on_time_2=".toList (by decide) (by decide)
      (by decide)
  have hk2 : strContains ("# on_time_2=".toList ++ hhmmChars t) offKey = false :=
    comment_contains_false (c := 'f') (by decide) (by decide) (by decide)
      (by decide)
  have hkey : strContains ("# on_time_2=".toList ++ hhmmChars t) onKey2 = true := by
    rw [show "# on_time_2=".toList = "# ".toList ++ onKey2 from by decide]
    exact isSub_append_self "# ".toList onKey2 (hhmmChars t)
  have hsplit : splitOnChar '=' ("# on_time_2=".toList ++ hhmmChars t) =
      ["# on_time_2".toList, hhmmChars t] := by
    rw [show "# on_time_2=".toList ++ hhmmChars t
        = "# on_time_2".toList ++ '=' :: hhmmChars t from by
          rw [show "# on_time_2=".toList
            = "# on_time_2".toList ++ ['='] from by decide, List.append_assoc,
            List.singleton_append],
      splitOnChar_append (by decide),
      splitOnChar_no_sep (hhmm_no_char (by decide) (by decide) t)]
  simp only [readStep, hk1, hk2, hkey, if_true, Bool.false_eq_true, if_false,
    hsplit, pyIndex1_cons, except_bind_ok, stripNl_hhmm,
    parseHMPair_hhmm t h1 h2]

lemma readStep_off2_line (st : ReadState) (t : TimeOfDay) (h1 : t.hour < 100)
    (h2 : t.minute < 100) :
    readStep st ("# off_time_2=".toList ++ hhmmChars t) =
      .ok { st with off2 := some ((t.hour : Int), (t.minute : Int)) } := by
  have hk1 : strContains ("# off_time_2=".toList ++ hhmmChars t) onKey = false :=
    comment_contains_false (c := 'n') (by decide) (by decide) (by decide)
      (by decide)
  have hk2 : strContains ("# off_time_2=".toList ++ hhmmChars t) offKey = false :=
    comment_contains_mixed_false "# off_time_2=".toList (by decide) (by decide)
      (by decide)
  have hk3 : strContains ("# off_time_2=".toList ++ hhmmChars t) onKey2 = false :=
    comment_contains_false (c := 'n') (by decide) (by decide) (by decide)
      (by decide)
  have hkey : strContains ("# off_time_2=".toList ++ hhmmChars t) offKey2 = true := by
    rw [show "# off_time_2=".toList = "# ".toList ++ offKey2 from by decide]
    exact isSub_append_self "# ".toList offKey2 (hhmmChars t)
  have hsplit : splitOnChar '=' ("# off_time_2=".toList ++ hhmmChars t) =
      ["# off_time_2".toList, hhmmChars t] := by
    rw [show "# off_time_2=".toList ++ hhmmChars t
        = "# off_time_2".toList ++ '=' :: hhmmChars t from by
          rw [show "# off_time_2=".toList
            = "# off_time_2".toList ++ ['='] from by decide, List.append_assoc,
            List.singleton_append],
      splitOnChar_append (by decide),
      splitOnChar_no_sep (hhmm_no_char (by decide) (by decide) t)]
  simp only [readStep, hk1, hk2, hk3, hkey, if_true, Bool.false_eq_true,
    if_false, hsplit, pyIndex1_cons, except_bind_ok, stripNl_hhmm,
    parseHMPair_hhmm t h1 h2]

lemma foldlM_step {l : List Char} {st st' : ReadState}
    (ls : List (List Char)) (h : readStep st l = .ok st') :
    List.foldlM readStep st (l :: ls) = List.foldlM readStep st' ls := by
  rw [List.foldlM_cons, h, except_bind_ok]

/-- C3: writing a schedule file and reading it back recovers the original
on and off times of day exactly, to minute precision, in both the
single-window and the dual-window form. -/
theorem write_read_roundtrip (date : List Char) (hdate : '=' ∉ date)
    (time_on time_off : TimeOfDay) (h1 : time_on.valid) (h2 : time_off.valid) :
    read_witty_schedule_file
        (write_witty_schedule_file date time_on time_off none none) =
      .ok ⟨some ((time_on.hour : Int), (time_on.minute : Int)),
           some ((time_off.hour : Int), (time_off.minute : Int)),
           none, none⟩ ∧
    ∀ t2 f2 : TimeOfDay, t2.valid → f2.valid →
      read_witty_schedule_file
          (write_witty_schedule_file date time_on time_off
            (some t2) (some f2)) =
        .ok ⟨some ((time_on.hour : Int), (time_on.minute : Int)),
             some ((time_off.hour : Int), (time_off.minute : Int)),
             some ((t2.hour : Int), (t2.minute : Int)),
             some ((f2.hour : Int), (f2.minute : Int))⟩ := by
  obtain ⟨h1h, h1m⟩ := h1
  obtain ⟨h2h, h2m⟩ := h2
  have hsegs : ∀ x y : TimeOfDay, ∀ l ∈ (singleSegments x y).map renderSeg,
      noKeyLine l := by
    intro x y l hm
    rcases List.mem_map.mp hm with ⟨s, _, rfl⟩
    exact renderSeg_no_key s
  have hsegs4 : ∀ a b c d : TimeOfDay,
      ∀ l ∈ (dualSegments a b c d).map renderSeg, noKeyLine l := by
    intro a b c d l hm
    rcases List.mem_map.mp hm with ⟨s, _, rfl⟩
    exact renderSeg_no_key s
  constructor
  · have e : write_witty_schedule_file date time_on time_off none none =
        headerLine :: ("# on_time=".toList ++ hhmmChars time_on) ::
        ("# off_time=".toList ++ hhmmChars time_off) ::
        beginLine date time_on :: endLine ::
        (singleSegments time_on time_off).map renderSeg := rfl
    rw [e]
    unfold read_witty_schedule_file
    rw [foldlM_step _ (readStep_no_key headerLine_no_key),
      foldlM_step _ (readStep_on_line _ time_on (by omega) (by omega)),
      foldlM_step _ (readStep_off_line _ time_off (by omega) (by omega)),
      foldlM_step _ (readStep_no_key (beginLine_no_key hdate time_on)),
      foldlM_step _ (readStep_no_key endLine_no_key),
      foldlM_no_key (hsegs time_on time_off) _]
    rfl
  · intro t2 f2 hv2 hvf2
    obtain ⟨h3h, h3m⟩ := hv2
    obtain ⟨h4h, h4m⟩ := hvf2
    have e : write_witty_schedule_file date time_on time_off
          (some t2) (some f2) =
        headerLine :: ("# on_time=".toList ++ hhmmChars time_on) ::
        ("# off_time=".toList ++ hhmmChars time_off) ::
        ("# on_time_2=".toList ++ hhmmChars t2) ::
        ("# off_time_2=".toList ++ hhmmChars f2) ::
        beginLine date (startTime1 time_on t2) :: endLine ::
        (dualSegments time_on time_off t2 f2).map renderSeg := rfl
    rw [e]
    unfold read_witty_schedule_file
    rw [foldlM_step _ (readStep_no_key headerLine_no_key),
      foldlM_step _ (readStep_on_line _ time_on (by omega) (by omega)),
      foldlM_step _ (readStep_off_line _ time_off (by omega) (by omega)),
      foldlM_step _ (readStep_on2_line _ t2 (by omega) (by omega)),
      foldlM_step _ (readStep_off2_line _ f2 (by omega) (by omega)),
      foldlM_step _ (readStep_no_key
        (beginLine_no_key hdate (startTime1 time_on t2))),
      foldlM_step _ (readStep_no_key endLine_no_key),
      foldlM_no_key (hsegs4 time_on time_off t2 f2) _]

/-- Witness for C3 at `on=06:30`, `off=19:05`, second window
`18:00-21:45`, date `2026-01-01`. -/
theorem write_read_roundtrip_witness :
    ('=' : Char) ∉ "2026-01-01".toList ∧
    (TimeOfDay.mk 6 30).valid ∧ (TimeOfDay.mk 19 5).valid ∧
    (read_witty_schedule_file
        (write_witty_schedule_file "2026-01-01".toList ⟨6, 30⟩ ⟨19, 5⟩
          none none) =
      .ok ⟨some (6, 30), some (19, 5), none, none⟩) ∧
    (read_witty_schedule_file
        (write_witty_schedule_file "2026-01-01".toList ⟨6, 30⟩ ⟨19, 5⟩
          (some ⟨18, 0⟩) (some ⟨21, 45⟩)) =
      .ok ⟨some (6, 30), some (19, 5), some (18, 0), some (21, 45)⟩) :=
  ⟨by decide, by decide, by decide,
    (write_read_roundtrip "2026-01-01".toList (by decide) ⟨6, 30⟩ ⟨19, 5⟩
      (by decide) (by decide)).1,
    (write_read_roundtrip "2026-01-01".toList (by decide) ⟨6, 30⟩ ⟨19, 5⟩
      (by decide) (by decide)).2 ⟨18, 0⟩ ⟨21, 45⟩ (by decide) (by decide)⟩

lemma readStep_shape {st : ReadState} {l : List Char} {st' : ReadState}
    (h : readStep st l = .ok st') :
    st' = st ∨
    (strContains l onKey = true ∧ ∃ p, st' = { st with on1 := some p }) ∨
    (strContains l offKey = true ∧ ∃ p, st' = { st with off1 := some p }) ∨
    (strContains l onKey2 = true ∧ ∃ p, st' = { st with on2 := some p }) ∨
    (strContains l offKey2 = true ∧ ∃ p, st' = { st with off2 := some p }) := by
  unfold readStep at h
  split_ifs at h with hc1 hc2 hc3 hc4
  · cases hpi : pyIndex1 (splitOnChar '=' l) with
    | error e => rw [hpi, except_bind_error] at h; cases h
    | ok v =>
      rw [hpi, except_bind_ok] at h
      cases hpp : parseHMPair (stripNl v) with
      | error e => rw [hpp, except_bind_error] at h; cases h
      | ok p =>
        rw [hpp, except_bind_ok] at h
        cases h
        exact Or.inr (Or.inl ⟨hc1, p, rfl⟩)
  · cases hpi : pyIndex1 (splitOnChar '=' l) with
    | error e => rw [hpi, except_bind_error] at h; cases h
    | ok v =>
      rw [hpi, except_bind_ok] at h
      cases hpp : parseHMPair (stripNl v) with
      | error e => rw [hpp, except_bind_error] at h; cases h
      | ok p =>
        rw [hpp, except_bind_ok] at h
        cases h
        exact Or.inr (Or.inr (Or.inl ⟨hc2, p, rfl⟩))
  · cases hpi : pyIndex1 (splitOnChar '=' l) with
    | error e => rw [hpi, except_bind_error] at h; cases h
    | ok v =>
      rw [hpi, except_bind_ok] at h
      cases hpp : parseHMPair (stripNl v) with
      | error e => rw [hpp, except_bind_error] at h; cases h
      | ok p =>
        rw [hpp, except_bind_ok] at h
        cases h
        exact Or.inr (Or.inr (Or.inr (Or.inl ⟨hc3, p, rfl⟩)))
  · cases hpi : pyIndex1 (splitOnChar '=' l) with
    | error e => rw [hpi, except_bind_error] at h; cases h
    | ok v =>
      rw [hpi, except_bind_ok] at h
      cases hpp : parseHMPair (stripNl v) with
      | error e => rw [hpp, except_bind_error] at h; cases h
      | ok p =>
        rw [hpp, except_bind_ok] at h
        cases h
        exact Or.inr (Or.inr (Or.inr (Or.inr ⟨hc4, p, rfl⟩)))
  · cases h
    exact Or.inl rfl

instance (l : List Char) : Decidable (noKeyLine l) := by
  unfold noKeyLine; infer_instance

/-- C10: the reader never fails because of missing comment keys — a file
with no key lines parses to all-`None` slots, and whenever the reader
returns, each slot whose key occurs on no line is `None` (the
`except AttributeError` around the `return` can never fire, as returning
the tuple raises nothing; the model needs no such branch). -/
theorem read_missing_keys (lines : List (List Char)) :
    ((∀ l ∈ lines, noKeyLine l) →
      read_witty_schedule_file lines = .ok ⟨none, none, none, none⟩) ∧
    ∀ r, read_witty_schedule_file lines = .ok r →
      ((∀ l ∈ lines, strContains l onKey = false) → r.on1 = none) ∧
      ((∀ l ∈ lines, strContains l offKey = false) → r.off1 = none) ∧
      ((∀ l ∈ lines, strContains l onKey2 = false) → r.on2 = none) ∧
      ((∀ l ∈ lines, strContains l offKey2 = false) → r.off2 = none) := by
  have key : ∀ (ls : List (List Char)) (st r : ReadState),
      List.foldlM readStep st ls = .ok r →
      ((∀ l ∈ ls, strContains l onKey = false) → r.on1 = st.on1) ∧
      ((∀ l ∈ ls, strContains l offKey = false) → r.off1 = st.off1) ∧
      ((∀ l ∈ ls, strContains l onKey2 = false) → r.on2 = st.on2) ∧
      ((∀ l ∈ ls, strContains l offKey2 = false) → r.off2 = st.off2) := by
    intro ls
    induction ls with
    | nil =>
      intro st r h
      cases h
      exact ⟨fun _ => rfl, fun _ => rfl, fun _ => rfl, fun _ => rfl⟩
    | cons l ls ih =>
      intro st r h
      rw [List.foldlM_cons] at h
      cases hstep : readStep st l with
      | error e => rw [hstep, except_bind_error] at h; cases h
      | ok st1 =>
        rw [hstep, except_bind_ok] at h
        obtain ⟨k1, k2, k3, k4⟩ := ih st1 r h
        have tail : ∀ (P : List Char → Prop), (∀ x ∈ l :: ls, P x) →
            ∀ x ∈ ls, P x :=
          fun P hall x hm => hall x (List.mem_cons_of_mem _ hm)
        rcases readStep_shape hstep with rfl | ⟨hc, p, rfl⟩ | ⟨hc, p, rfl⟩ |
          ⟨hc, p, rfl⟩ | ⟨hc, p, rfl⟩
        · exact ⟨fun hall => k1 (tail _ hall), fun hall => k2 (tail _ hall),
            fun hall => k3 (tail _ hall), fun hall => k4 (tail _ hall)⟩
        · refine ⟨fun hall => ?_, fun hall => k2 (tail _ hall),
            fun hall => k3 (tail _ hall), fun hall => k4 (tail _ hall)⟩
          rw [hall l (List.mem_cons_self _ _)] at hc
          cases hc
        · refine ⟨fun hall => k1 (tail _ hall), fun hall => ?_,
            fun hall => k3 (tail _ hall), fun hall => k4 (tail _ hall)⟩
          rw [hall l (List.mem_cons_self _ _)] at hc
          cases hc
        · refine ⟨fun hall => k1 (tail _ hall), fun hall => k2 (tail _ hall),
            fun hall => ?_, fun hall => k4 (tail _ hall)⟩
          rw [hall l (List.mem_cons_self _ _)] at hc
          cases hc
        · refine ⟨fun hall => k1 (tail _ hall), fun hall => k2 (tail _ hall),
            fun hall => k3 (tail _ hall), fun hall => ?_⟩
          rw [hall l (List.mem_cons_self _ _)] at hc
          cases hc
  constructor
  · intro h
    exact foldlM_no_key h initialState
  · intro r h
    obtain ⟨k1, k2, k3, k4⟩ := key lines initialState r h
    exact ⟨k1, k2, k3, k4⟩

/-- Witness for C10 on the one-line file holding only the `END` sentinel. -/
theorem read_missing_keys_witness :
    (∀ l ∈ [endLine], noKeyLine l) ∧
    read_witty_schedule_file [endLine] = .ok ⟨none, none, none, none⟩ :=
  ⟨by decide, (read_missing_keys [endLine]).1 (by decide)⟩

/-- C4 (counterexample): a file missing the `on_time=` comment line does
not make the reader fail — it returns successfully with `(None, None)` for
the on-pair; no `ScheduleFormatError` is raised (none exists in the code). -/
theorem read_missing_on_time_returns :
    read_witty_schedule_file ["# off_time=06:00".toList] =
      .ok ⟨none, some (6, 0), none, none⟩ := by
  rfl

/-- C4 (amended): parsing a file without the `on_time=` comment line
succeeds and leaves the on-pair `(None, None)`; a value not parseable as
`HH:MM` propagates a plain `ValueError` from `int()`, not a
`ScheduleFormatError` (which does not exist in the code). -/
theorem read_missing_or_malformed :
    read_witty_schedule_file ["# off_time=06:00".toList] =
      .ok ⟨none, some (6, 0), none, none⟩ ∧
    read_witty_schedule_file ["# on_time=ab:cd".toList] =
      .error .valueError := by
  constructor <;> rfl

end PyCam
